import Mathlib

/-!
Verification of the dm-cdk-helper workflow chain builder.

Shallow embedding of `StepFunctionStack` (src: step.stack file) from the
dm-cdk-helper repository.  The stack builds an AWS Step Functions chain from a
registry of Lambda functions: each registry entry whose `repeat` flag is set is
guarded by a DynamoDB state check and a Choice that skips the Lambda when a
prior run recorded success; other entries are invoked directly.

The embedding models:
* the CDK step constructs the stack instantiates (`Pass`, `LambdaInvoke`,
  `DynamoGetItem`, `Choice`) as an inductive `Step` type carrying exactly the
  configuration strings the source passes to them;
* `Chain` as the list of top-level states, with `chainNext` playing the role of
  `Chain.next` (sequential append);
* the builder methods `registerFn`, `registerCheck`, `registerChoice`,
  `registerSingleRunFn`, `processRegistry`, `registerStateMachine` and the
  constructor's chain set-up, line by line from the source;
* the external execution engine's evaluation of a finished plan, modelled from
  the spec's collaborator contract (the engine itself is not part of this
  repository).
-/

namespace DmCdk

/-- A Lambda registry entry (`ILambdaRegistery` in the source).  The source
stores the CDK `Function` object; the only attribute the builder ever reads
from it is `functionName`, so the function is represented here by that name.
`repeat` is the source's boolean flag on the entry. -/
structure ILambdaRegistery where
  fn : String
  «repeat» : Bool
deriving DecidableEq

/-- A step-function state as configured by the stack.  Each constructor carries
the configuration the source passes to the corresponding CDK construct:
* `pass name` — a `Pass` state (input forwarded unchanged);
* `lambdaInvoke fnName outputPath` — a `LambdaInvoke` task;
* `dynamoGetItem keyId keyTenant resultPath` — a `DynamoGetItem` task reading
  the item at key `(id = keyId, tenant = keyTenant)` into `resultPath`;
* `choice condPath condValue whenTrue otherwise` — a `Choice` with a single
  `when(Condition.stringEquals(condPath, condValue), whenTrue)` branch and an
  `otherwise` branch, exactly as built by `registerChoice`. -/
inductive Step where
  | pass (name : String)
  | lambdaInvoke (fnName : String) (outputPath : String)
  | dynamoGetItem (keyId : String) (keyTenant : String) (resultPath : String)
  | choice (condPath : String) (condValue : String) (whenTrue : Step) (otherwise : Step)
deriving DecidableEq

/-- A chain of states: the ordered list of top-level states.  The CDK `Chain`
is an ordered sequence of states; `Chain.start p` is the one-element chain. -/
abbrev Chain := List Step

/-- The method Chain.next from the CDK: appending one more state to the sequence. -/
def chainNext (c : Chain) (s : Step) : Chain := c ++ [s]

/-- Method registerFn: builds the `LambdaInvoke` task for a Lambda, with
`outputPath: $.Payload` as in the source.  (The source also records the task
in the stack's private `items` map; that bookkeeping map is never read when
building the chain, so it is not modelled.) -/
def registerFn (lambda : String) : Step :=
  Step.lambdaInvoke lambda "$.Payload"

/-- Method registerCheck: the `DynamoGetItem` task querying the system table at key
`(id = lambdaName, tenant = tenant)` with `resultPath: $.dynamodbResult`. -/
def registerCheck (tenant : String) (lambdaName : String) : Step :=
  Step.dynamoGetItem lambdaName tenant "$.dynamodbResult"

/-- Method registerChoice: the `Choice` testing
`stringEquals($.dynamodbResult.Item.payload.S, "true")`, skipping the Lambda
through a `Pass` when true and otherwise invoking it via `registerFn`. -/
def registerChoice (lambda : String) : Step :=
  Step.choice "$.dynamodbResult.Item.payload.S" "true"
    (Step.pass ("Skip " ++ lambda))
    (registerFn lambda)

/-- Method registerSingleRunFn: appends the status check then the choice to the
chain (`chain.next(fnStatus).next(fnChoice)` in the source). -/
def registerSingleRunFn (tenant : String) (chain : Chain) (lambda : String) : Chain :=
  chainNext (chainNext chain (registerCheck tenant lambda)) (registerChoice lambda)

/-- Method processRegistry: folds over the registry entries in insertion order
(`Map.forEach` iterates a JS `Map` in insertion order and the callback reads
only the entry value), updating `localChain` exactly as the source's loop
body does. -/
def processRegistry (tenant : String) (chain : Chain)
    (fnRegistry : List ILambdaRegistery) : Chain :=
  fnRegistry.foldl
    (fun localChain item =>
      if item.«repeat» then
        registerSingleRunFn tenant localChain item.fn
      else
        chainNext localChain (registerFn item.fn))
    chain

/-- The states one registry entry contributes to the chain: the loop body of
`processRegistry` expressed as the emitted segment. -/
def unitSteps (tenant : String) (item : ILambdaRegistery) : List Step :=
  if item.«repeat» then
    [registerCheck tenant item.fn, registerChoice item.fn]
  else
    [registerFn item.fn]

/-- The chain the `StepFunctionStack` constructor stores in `chainLink`:
`processRegistry(Chain.start(initialPass), config.fnRegistry)` where
`initialPass` is the `Pass` named `Step One For:<id>`. -/
def stackChainLink (id : String) (tenant : String)
    (fnRegistry : List ILambdaRegistery) : Chain :=
  processRegistry tenant [Step.pass ("Step One For:" ++ id)] fnRegistry

theorem processRegistry_cons (tenant : String) (chain : Chain)
    (item : ILambdaRegistery) (reg : List ILambdaRegistery) :
    processRegistry tenant chain (item :: reg)
      = processRegistry tenant (chain ++ unitSteps tenant item) reg := by
  by_cases h : item.«repeat»
  · simp [processRegistry, unitSteps, h, registerSingleRunFn, chainNext, List.append_assoc]
  · simp [processRegistry, unitSteps, h, chainNext]

theorem processRegistry_eq_append_join (tenant : String) (chain : Chain)
    (reg : List ILambdaRegistery) :
    processRegistry tenant chain reg
      = chain ++ (reg.map (unitSteps tenant)).flatten := by
  induction reg generalizing chain with
  | nil => simp [processRegistry]
  | cons item rest ih =>
      rw [processRegistry_cons, ih]
      simp [List.append_assoc]

/-! Execution semantics of a finished plan.

The plan is executed by the external Workflow Execution Engine (AWS Step
Functions), which is not code of this repository; its evaluation rules below
are modelled from the spec's collaborator contract: the engine chains steps
sequentially and evaluates a string-equality branch condition on a field of
the previous step's result, and an absent State Record is treated as "not yet
successful", never as an error. -/

/-- A key-value state store, addressed by the compound key
(work-unit name, tenant): returns the string-valued `payload` field of the
stored item, or `none` when no item exists for the key. -/
abbrev StateStore := String × String → Option String

/-- The engine's data register relevant to the generated plan: the value
sitting at `$.dynamodbResult`.  `none` means the path is absent from the
current state; `some r` means a `DynamoGetItem` result is there, `r` being
the retrieved item's payload (`none` when the item was not found). -/
abbrev EngineState := Option (Option String)

/-- An observable event of one plan execution. -/
inductive Event where
  | checked (name : String) (result : Option String)
  | invoked (name : String)
  | passed (name : String)
deriving DecidableEq

/-- Modelled from the spec: the engine's string-equality branch condition
(`Condition.stringEquals` of the wrapped framework, whose evaluator is not
part of this repository).  It is true exactly when the tested field is
present and equal to the given value; an absent record or absent field makes
the condition false (spec: an absent State Record is treated identically to
"not successful", never an error). -/
def evalStringEquals (st : EngineState) (value : String) : Bool :=
  match st with
  | some (some payload) => payload == value
  | _ => false

/-- Modelled from the spec: one engine step of a plan execution (the engine
itself is external to this repository).  A `Pass` forwards the state; a
`LambdaInvoke` with `outputPath: $.Payload` replaces the whole state with the
Lambda's payload (so the `$.dynamodbResult` slot is absent afterwards); a
`DynamoGetItem` stores the store lookup for its key at `$.dynamodbResult`; a
`Choice` evaluates its string-equality condition on the current state and
runs the selected branch. -/
def execStep (store : StateStore) : Step → EngineState → EngineState × List Event
  | Step.pass name, st => (st, [Event.passed name])
  | Step.lambdaInvoke fnName _, _ => (none, [Event.invoked fnName])
  | Step.dynamoGetItem keyId keyTenant _, _ =>
      (some (store (keyId, keyTenant)), [Event.checked keyId (store (keyId, keyTenant))])
  | Step.choice _ condValue whenTrue otherwise, st =>
      if evalStringEquals st condValue then execStep store whenTrue st
      else execStep store otherwise st

/-- Modelled from the spec: sequential execution of a chain of steps by the
engine, threading the state and concatenating the events. -/
def execChain (store : StateStore) : Chain → EngineState → EngineState × List Event
  | [], st => (st, [])
  | s :: rest, st =>
      ((execChain store rest (execStep store s st).1).1,
        (execStep store s st).2 ++ (execChain store rest (execStep store s st).1).2)

/-- The event trace of executing a finished plan from the engine's initial
state (no `$.dynamodbResult` yet). -/
def execTrace (store : StateStore) (chain : Chain) : List Event :=
  (execChain store chain none).2

/-- The names of the Lambdas invoked in a trace, in order. -/
def invokedNames : List Event → List String
  | [] => []
  | Event.invoked n :: rest => n :: invokedNames rest
  | _ :: rest => invokedNames rest

theorem execChain_append (store : StateStore) (c1 c2 : Chain) (st : EngineState) :
    execChain store (c1 ++ c2) st
      = ((execChain store c2 (execChain store c1 st).1).1,
          (execChain store c1 st).2 ++ (execChain store c2 (execChain store c1 st).1).2) := by
  induction c1 generalizing st with
  | nil => simp [execChain]
  | cons s rest ih => simp [execChain, ih]

theorem invokedNames_append (a b : List Event) :
    invokedNames (a ++ b) = invokedNames a ++ invokedNames b := by
  induction a with
  | nil => rfl
  | cons e rest ih => cases e <;> simp [invokedNames, ih]

/-- The trace one registry entry's emitted segment produces (the segment's
trace does not depend on the engine state it starts in, see
`execChain_unitSteps_trace`). -/
def segTrace (store : StateStore) (tenant : String) (item : ILambdaRegistery) : List Event :=
  (execChain store (unitSteps tenant item) none).2

theorem execChain_seg_rep (store : StateStore) (tenant : String)
    (item : ILambdaRegistery) (st : EngineState) (h : item.«repeat» = true) :
    execChain store (unitSteps tenant item) st
      = if store (item.fn, tenant) = some "true"
        then (some (some "true"),
          [Event.checked item.fn (some "true"), Event.passed ("Skip " ++ item.fn)])
        else (none,
          [Event.checked item.fn (store (item.fn, tenant)), Event.invoked item.fn]) := by
  rcases hs : store (item.fn, tenant) with _ | p
  · simp [unitSteps, h, execChain, execStep, registerCheck, registerChoice, registerFn,
      evalStringEquals, hs]
  · by_cases hp : p = "true" <;>
      simp [unitSteps, h, execChain, execStep, registerCheck, registerChoice, registerFn,
        evalStringEquals, hs, hp]

theorem execChain_seg_norep (store : StateStore) (tenant : String)
    (item : ILambdaRegistery) (st : EngineState) (h : item.«repeat» = false) :
    execChain store (unitSteps tenant item) st = (none, [Event.invoked item.fn]) := by
  simp [unitSteps, h, execChain, execStep, registerFn]

theorem execChain_unitSteps_trace (store : StateStore) (tenant : String)
    (item : ILambdaRegistery) (st : EngineState) :
    (execChain store (unitSteps tenant item) st).2 = segTrace store tenant item := by
  unfold segTrace
  cases h : item.«repeat»
  · rw [execChain_seg_norep store tenant item st h,
      execChain_seg_norep store tenant item none h]
  · rw [execChain_seg_rep store tenant item st h,
      execChain_seg_rep store tenant item none h]

theorem segTrace_rep_success (store : StateStore) (tenant : String)
    (item : ILambdaRegistery) (h : item.«repeat» = true)
    (hs : store (item.fn, tenant) = some "true") :
    segTrace store tenant item
      = [Event.checked item.fn (some "true"), Event.passed ("Skip " ++ item.fn)] := by
  unfold segTrace
  rw [execChain_seg_rep store tenant item none h, if_pos hs]

theorem segTrace_rep_notSuccess (store : StateStore) (tenant : String)
    (item : ILambdaRegistery) (h : item.«repeat» = true)
    (hs : store (item.fn, tenant) ≠ some "true") :
    segTrace store tenant item
      = [Event.checked item.fn (store (item.fn, tenant)), Event.invoked item.fn] := by
  unfold segTrace
  rw [execChain_seg_rep store tenant item none h, if_neg hs]

theorem segTrace_norep (store : StateStore) (tenant : String)
    (item : ILambdaRegistery) (h : item.«repeat» = false) :
    segTrace store tenant item = [Event.invoked item.fn] := by
  unfold segTrace
  rw [execChain_seg_norep store tenant item none h]

theorem segTrace_rep_head (store : StateStore) (tenant : String)
    (item : ILambdaRegistery) (h : item.«repeat» = true) :
    ∃ rest, segTrace store tenant item
      = Event.checked item.fn (store (item.fn, tenant)) :: rest := by
  by_cases hs : store (item.fn, tenant) = some "true"
  · exact ⟨_, by rw [segTrace_rep_success store tenant item h hs, hs]⟩
  · exact ⟨_, segTrace_rep_notSuccess store tenant item h hs⟩

theorem execChain_flatten_trace (store : StateStore) (tenant : String)
    (reg : List ILambdaRegistery) (st : EngineState) :
    (execChain store ((reg.map (unitSteps tenant)).flatten) st).2
      = (reg.map (segTrace store tenant)).flatten := by
  induction reg generalizing st with
  | nil => simp [execChain]
  | cons item rest ih =>
      simp only [List.map_cons, List.flatten_cons]
      rw [execChain_append]
      simp only [List.flatten, ih]
      rw [execChain_unitSteps_trace]

/-- The full trace of executing the constructor-built chain: the initial Pass
event followed by one trace segment per registry entry, in insertion order. -/
theorem execTrace_stackChainLink (store : StateStore) (id tenant : String)
    (reg : List ILambdaRegistery) :
    execTrace store (stackChainLink id tenant reg)
      = Event.passed ("Step One For:" ++ id) :: (reg.map (segTrace store tenant)).flatten := by
  unfold execTrace stackChainLink
  rw [processRegistry_eq_append_join]
  have : (Step.pass ("Step One For:" ++ id) :: []) ++ (reg.map (unitSteps tenant)).flatten
      = Step.pass ("Step One For:" ++ id) :: (reg.map (unitSteps tenant)).flatten := rfl
  rw [this]
  simp only [execChain, execStep]
  rw [execChain_flatten_trace]
  rfl

theorem invoked_mem_segTrace {store : StateStore} {tenant : String}
    {e : ILambdaRegistery} {x : String}
    (h : Event.invoked x ∈ segTrace store tenant e) : x = e.fn := by
  cases hr : e.«repeat»
  · rw [segTrace_norep store tenant e hr] at h
    simpa using h
  · by_cases hs : store (e.fn, tenant) = some "true"
    · rw [segTrace_rep_success store tenant e hr hs] at h
      simp at h
    · rw [segTrace_rep_notSuccess store tenant e hr hs] at h
      simpa using h

theorem passed_mem_segTrace {store : StateStore} {tenant : String}
    {e : ILambdaRegistery} {x : String}
    (h : Event.passed x ∈ segTrace store tenant e) :
    x = "Skip " ++ e.fn ∧ e.«repeat» = true ∧ store (e.fn, tenant) = some "true" := by
  cases hr : e.«repeat»
  · rw [segTrace_norep store tenant e hr] at h
    simp at h
  · by_cases hs : store (e.fn, tenant) = some "true"
    · rw [segTrace_rep_success store tenant e hr hs] at h
      simp at h
      exact ⟨h, rfl, hs⟩
    · rw [segTrace_rep_notSuccess store tenant e hr hs] at h
      simp at h

theorem fn_eq_of_mem_of_nodup {reg : List ILambdaRegistery}
    {e item : ILambdaRegistery}
    (hnd : (reg.map ILambdaRegistery.fn).Nodup)
    (he : e ∈ reg) (hi : item ∈ reg) (hfn : e.fn = item.fn) : e = item :=
  List.inj_on_of_nodup_map hnd he hi hfn

theorem skip_name_inj {a b : String} (h : "Skip " ++ a = "Skip " ++ b) : a = b := by
  have hd : "Skip ".data ++ a.data = "Skip ".data ++ b.data := congrArg String.data h
  have h2 := List.append_cancel_left hd
  cases a; cases b; simp_all

theorem skip_ne_stepOne (a b : String) : "Skip " ++ a ≠ "Step One For:" ++ b := by
  intro h
  have hd : "Skip ".data ++ a.data = "Step One For:".data ++ b.data :=
    congrArg String.data h
  simp at hd

/-- How many `LambdaInvoke` tasks for the named Lambda a state contains,
branches of a `Choice` included. -/
def invokeCount (name : String) : Step → Nat
  | Step.pass _ => 0
  | Step.lambdaInvoke n _ => if n = name then 1 else 0
  | Step.dynamoGetItem _ _ _ => 0
  | Step.choice _ _ whenTrue otherwise =>
      invokeCount name whenTrue + invokeCount name otherwise

/-- How many `LambdaInvoke` tasks for the named Lambda a whole chain
contains. -/
def chainInvokeCount (name : String) (c : Chain) : Nat :=
  (c.map (invokeCount name)).sum

/-- How many `DynamoGetItem` tasks keyed by the named Lambda a state
contains, branches of a `Choice` included. -/
def checkCount (name : String) : Step → Nat
  | Step.pass _ => 0
  | Step.lambdaInvoke _ _ => 0
  | Step.dynamoGetItem keyId _ _ => if keyId = name then 1 else 0
  | Step.choice _ _ whenTrue otherwise =>
      checkCount name whenTrue + checkCount name otherwise

/-- How many `DynamoGetItem` tasks keyed by the named Lambda a whole chain
contains. -/
def chainCheckCount (name : String) (c : Chain) : Nat :=
  (c.map (checkCount name)).sum

theorem chainInvokeCount_unitSteps (tenant : String) (item : ILambdaRegistery)
    (x : String) :
    chainInvokeCount x (unitSteps tenant item) = if item.fn = x then 1 else 0 := by
  cases h : item.«repeat» <;>
    simp [unitSteps, h, chainInvokeCount, invokeCount, registerCheck, registerChoice,
      registerFn]

/-- Summing an entry-wise quantity over a registry with pairwise-distinct
function names, when the quantity vanishes on every entry other than the
distinguished one. -/
theorem sum_map_eq_single (reg : List ILambdaRegistery) (item : ILambdaRegistery)
    (f : ILambdaRegistery → Nat)
    (hnd : (reg.map ILambdaRegistery.fn).Nodup) (hmem : item ∈ reg)
    (hzero : ∀ e ∈ reg, e.fn ≠ item.fn → f e = 0) :
    (reg.map f).sum = f item := by
  obtain ⟨s, t, rfl⟩ := List.append_of_mem hmem
  rw [List.map_append, List.map_cons] at hnd
  rw [List.nodup_middle] at hnd
  obtain ⟨hnotmem, _⟩ := List.nodup_cons.mp hnd
  rw [← List.map_append] at hnotmem
  have hside : ∀ e ∈ s ++ t, e.fn ≠ item.fn := by
    intro e he heq
    exact hnotmem (heq ▸ List.mem_map_of_mem ILambdaRegistery.fn he)
  have hs0 : (s.map f).sum = 0 := by
    apply List.sum_eq_zero
    intro n hn
    obtain ⟨e, he, rfl⟩ := List.mem_map.mp hn
    exact hzero e (List.mem_append_left _ he)
      (hside e (List.mem_append_left _ he))
  have ht0 : (t.map f).sum = 0 := by
    apply List.sum_eq_zero
    intro n hn
    obtain ⟨e, he, rfl⟩ := List.mem_map.mp hn
    exact hzero e (List.mem_append_right _ (List.mem_cons_of_mem _ he))
      (hside e (List.mem_append_right _ he))
  simp [List.map_append, List.sum_append, hs0, ht0]

/-!
Registration of the finished plan with the execution engine
(`registerStateMachine`).  The source passes `Duration.minutes(timeout)` to
the CDK `StateMachine` construct.  Both `Duration` and `StateMachine` come
from the wrapped aws-cdk-lib, embedded here with that library's behaviour:
`Duration` construction throws `Duration amounts cannot be negative` for a
negative amount and accepts zero; the `StateMachine` construct performs no
positivity validation of its own and renders the timeout as `TimeoutSeconds`
(minutes times 60) in the synthesized definition.  The thrown error is the
only failure, and it happens while the arguments of the `StateMachine`
constructor are evaluated, before the construct is created.
-/

/-- The state machine resource as registered with the engine: name, plan
definition, and the timeout rendered in seconds. -/
structure StateMachineResource where
  name : String
  definition : Chain
  timeoutSeconds : Int
deriving DecidableEq

/-- The function Duration.minutes of the wrapped CDK library: errors on a
negative amount, accepts zero. -/
def durationMinutes (amount : Int) : Except String Int :=
  if amount < 0 then Except.error "Duration amounts cannot be negative"
  else Except.ok amount

/-- Method registerStateMachine: creates the `StateMachine` with the given
definition, name and `timeout: Duration.minutes(timeout)`.  The `Duration`
argument is evaluated first; if it errors, no state machine is created. -/
def registerStateMachine (definition : Chain) (name : String) (timeout : Int) :
    Except String StateMachineResource := do
  let d ← durationMinutes timeout
  pure ⟨name, definition, 60 * d⟩

theorem fn_ne_of_nodup_split {reg s t : List ILambdaRegistery}
    {item : ILambdaRegistery}
    (hnd : (reg.map ILambdaRegistery.fn).Nodup) (hsplit : reg = s ++ item :: t) :
    ∀ e ∈ s ++ t, e.fn ≠ item.fn := by
  subst hsplit
  rw [List.map_append, List.map_cons, List.nodup_middle] at hnd
  obtain ⟨hnotmem, _⟩ := List.nodup_cons.mp hnd
  rw [← List.map_append] at hnotmem
  intro e he heq
  exact hnotmem (heq ▸ List.mem_map_of_mem ILambdaRegistery.fn he)

/-- C1: Build (`processRegistry`) emits, for every registry entry whose
single-run flag is set (the source's `repeat` field, the branch routed
through `registerSingleRunFn`), the guarded segment: a state-check followed
by a two-way branch that either skips or invokes; and for every entry with
the flag unset, a single direct invoke step containing no state-check at
all.  The whole chain is the input chain followed by these per-entry
segments. -/
theorem claim_C1 (tenant : String) (chain : Chain) (reg : List ILambdaRegistery)
    (item : ILambdaRegistery) :
    processRegistry tenant chain reg = chain ++ (reg.map (unitSteps tenant)).flatten
    ∧ (item.«repeat» = true →
        unitSteps tenant item
          = [Step.dynamoGetItem item.fn tenant "$.dynamodbResult",
             Step.choice "$.dynamodbResult.Item.payload.S" "true"
               (Step.pass ("Skip " ++ item.fn))
               (Step.lambdaInvoke item.fn "$.Payload")])
    ∧ (item.«repeat» = false →
        unitSteps tenant item = [Step.lambdaInvoke item.fn "$.Payload"]
        ∧ ∀ x, chainCheckCount x (unitSteps tenant item) = 0) := by
  refine ⟨processRegistry_eq_append_join tenant chain reg, ?_, ?_⟩
  · intro h
    simp [unitSteps, h, registerCheck, registerChoice, registerFn]
  · intro h
    constructor
    · simp [unitSteps, h, registerFn]
    · intro x
      simp [unitSteps, h, chainCheckCount, checkCount, registerFn]

theorem claim_C1_witness :
    unitSteps "tenant0" ⟨"FnA", true⟩
      = [Step.dynamoGetItem "FnA" "tenant0" "$.dynamodbResult",
         Step.choice "$.dynamodbResult.Item.payload.S" "true"
           (Step.pass ("Skip " ++ "FnA")) (Step.lambdaInvoke "FnA" "$.Payload")]
    ∧ unitSteps "tenant0" ⟨"FnB", false⟩ = [Step.lambdaInvoke "FnB" "$.Payload"] :=
  ⟨(claim_C1 "tenant0" [] [] ⟨"FnA", true⟩).2.1 rfl,
   ((claim_C1 "tenant0" [] [] ⟨"FnB", false⟩).2.2 rfl).1⟩

/-- C3: the chain built by the stack constructor is the initial step followed
by exactly one emitted segment per registry entry; the segment list has the
registry's length and its i-th element is the segment of the registry's i-th
entry, so segments appear in insertion order and are never reordered. -/
theorem claim_C3 (id tenant : String) (reg : List ILambdaRegistery) :
    stackChainLink id tenant reg
      = Step.pass ("Step One For:" ++ id) :: (reg.map (unitSteps tenant)).flatten
    ∧ (reg.map (unitSteps tenant)).length = reg.length
    ∧ ∀ (i : Nat) (h : i < reg.length),
        (reg.map (unitSteps tenant)).get ⟨i, by simpa using h⟩
          = unitSteps tenant (reg.get ⟨i, h⟩) := by
  refine ⟨?_, by simp, ?_⟩
  · unfold stackChainLink
    rw [processRegistry_eq_append_join]
    rfl
  · intro i h
    simp [List.get_eq_getElem, List.getElem_map]

theorem claim_C3_witness :
    (0 < ([⟨"FnA", false⟩] : List ILambdaRegistery).length)
    ∧ (([⟨"FnA", false⟩] : List ILambdaRegistery).map (unitSteps "tenant0")).get
          ⟨0, by decide⟩
        = unitSteps "tenant0" (([⟨"FnA", false⟩] : List ILambdaRegistery).get
          ⟨0, by decide⟩) :=
  ⟨by decide, (claim_C3 "Stack1" "tenant0" [⟨"FnA", false⟩]).2.2 0 (by decide)⟩

/-- C4: `registerSingleRunFn` appends to the chain a state-check step reading
the State Record at the compound key (unit name, tenant) into
`$.dynamodbResult`, immediately followed by a branch with exactly two
outcomes testing whether the retrieved payload equals the sentinel `true`:
a no-op skip Pass on true, a direct invoke of the unit otherwise. -/
theorem claim_C4 (tenant : String) (chain : Chain) (lambda : String) :
    registerSingleRunFn tenant chain lambda
      = chain ++
        [Step.dynamoGetItem lambda tenant "$.dynamodbResult",
         Step.choice "$.dynamodbResult.Item.payload.S" "true"
           (Step.pass ("Skip " ++ lambda))
           (Step.lambdaInvoke lambda "$.Payload")] := by
  simp [registerSingleRunFn, chainNext, registerCheck, registerChoice, registerFn]

/-- C9: for an empty registry, Build returns the input chain unchanged, so
the constructor-built plan is exactly the initial step and nothing else. -/
theorem claim_C9 (tenant : String) (chain : Chain) (id : String) :
    processRegistry tenant chain [] = chain
    ∧ stackChainLink id tenant [] = [Step.pass ("Step One For:" ++ id)] :=
  ⟨rfl, rfl⟩

/-- C2 as stated is false at timeout 0: `registerStateMachine` performs no
validation of its own and the wrapped `Duration.minutes(0)` is legal, so the
zero timeout is passed straight through to the engine registration instead
of being rejected. -/
theorem claim_C2_counterexample :
    (0 : Int) ≤ 0
    ∧ registerStateMachine [] "TestStateMachine" 0
        = Except.ok ⟨"TestStateMachine", [], 0⟩ :=
  ⟨le_refl 0, rfl⟩

/-- C2 amended: for every strictly negative timeout, Finalize
(`registerStateMachine`) fails with the configuration error raised while the
`Duration` argument is evaluated, before any state machine is registered,
and the value is never clamped; timeout 0 is not rejected. -/
theorem claim_C2_amended_thm (definition : Chain) (name : String) (t : Int)
    (h : t < 0) :
    registerStateMachine definition name t
      = Except.error "Duration amounts cannot be negative" := by
  have hd : durationMinutes t = Except.error "Duration amounts cannot be negative" := by
    unfold durationMinutes
    rw [if_pos h]
  unfold registerStateMachine
  rw [hd]
  rfl

theorem claim_C2_amended_witness :
    (-1 : Int) < 0
    ∧ registerStateMachine [] "TestStateMachine" (-1)
        = Except.error "Duration amounts cannot be negative" :=
  ⟨by decide, claim_C2_amended_thm [] "TestStateMachine" (-1) (by decide)⟩

/-- C10: the timeout argument of Finalize is interpreted as minutes: for
every positive t, registration succeeds and the wall-clock timeout handed to
the engine is 60·t seconds. -/
theorem claim_C10 (definition : Chain) (name : String) (t : Int) (h : 0 < t) :
    registerStateMachine definition name t
      = Except.ok ⟨name, definition, 60 * t⟩ := by
  have hd : durationMinutes t = Except.ok t := by
    unfold durationMinutes
    rw [if_neg (by omega)]
  unfold registerStateMachine
  rw [hd]
  rfl

theorem claim_C10_witness :
    (0 : Int) < 5
    ∧ registerStateMachine [] "TestStateMachine" 5
        = Except.ok ⟨"TestStateMachine", [], 300⟩ :=
  ⟨by decide, claim_C10 [] "TestStateMachine" 5 (by decide)⟩

/-- C5: for an idempotent unit whose State Record is absent, the guarded
branch falls through to invoking the unit — the segment's trace is the check
(returning no item) followed by the invocation, with no failure outcome —
and its invocations are the same as for a record whose payload is not the
success sentinel. -/
theorem claim_C5 (store store2 : StateStore) (tenant : String)
    (item : ILambdaRegistery) (p : String)
    (hrep : item.«repeat» = true)
    (habsent : store (item.fn, tenant) = none)
    (hpresent : store2 (item.fn, tenant) = some p) (hne : p ≠ "true") :
    segTrace store tenant item
      = [Event.checked item.fn none, Event.invoked item.fn]
    ∧ invokedNames (segTrace store tenant item)
        = invokedNames (segTrace store2 tenant item) := by
  have h1 : store (item.fn, tenant) ≠ some "true" := by
    rw [habsent]
    simp
  have h2 : store2 (item.fn, tenant) ≠ some "true" := by
    rw [hpresent]
    simpa using hne
  rw [segTrace_rep_notSuccess store tenant item hrep h1,
      segTrace_rep_notSuccess store2 tenant item hrep h2, habsent]
  exact ⟨rfl, by simp [invokedNames]⟩

theorem claim_C5_witness :
    segTrace (fun _ => none) "tenant0" ⟨"FnA", true⟩
      = [Event.checked "FnA" none, Event.invoked "FnA"]
    ∧ invokedNames (segTrace (fun _ => none) "tenant0" ⟨"FnA", true⟩)
        = invokedNames (segTrace (fun _ => some "false") "tenant0" ⟨"FnA", true⟩) :=
  claim_C5 (fun _ => none) (fun _ => some "false") "tenant0" ⟨"FnA", true⟩ "false"
    rfl rfl rfl (by decide)

/-- C6: in every built plan over a registry with pairwise-distinct function
names: the distinguished unit's invoke step occurs exactly once in the plan;
when the unit is idempotent, any execution trace contains its state-check
event with nothing before it invoking the unit (its invoke is unreachable
without the check having executed first); and its skip step is reached only
when the state-check found the success marker. -/
theorem claim_C6 (store : StateStore) (id tenant : String)
    (reg : List ILambdaRegistery) (item : ILambdaRegistery)
    (hnd : (reg.map ILambdaRegistery.fn).Nodup) (hmem : item ∈ reg) :
    chainInvokeCount item.fn (stackChainLink id tenant reg) = 1
    ∧ (item.«repeat» = true →
        (∃ pre mid, execTrace store (stackChainLink id tenant reg)
            = pre ++ Event.checked item.fn (store (item.fn, tenant)) :: mid
          ∧ Event.invoked item.fn ∉ pre)
        ∧ (Event.passed ("Skip " ++ item.fn)
              ∈ execTrace store (stackChainLink id tenant reg)
            → store (item.fn, tenant) = some "true")) := by
  have hplan : stackChainLink id tenant reg
      = Step.pass ("Step One For:" ++ id) :: (reg.map (unitSteps tenant)).flatten := by
    unfold stackChainLink
    rw [processRegistry_eq_append_join]
    rfl
  refine ⟨?_, ?_⟩
  · rw [hplan]
    unfold chainInvokeCount
    rw [List.map_cons, List.sum_cons, List.map_flatten, List.sum_flatten,
      List.map_map, List.map_map]
    have hsum : (reg.map ((List.sum ∘ List.map (invokeCount item.fn)) ∘ unitSteps tenant)).sum
        = (reg.map (fun e => chainInvokeCount item.fn (unitSteps tenant e))).sum := by
      rfl
    rw [hsum, sum_map_eq_single reg item _ hnd hmem ?_]
    · rw [chainInvokeCount_unitSteps, if_pos rfl]
      rfl
    · intro e he hne
      rw [chainInvokeCount_unitSteps, if_neg hne]
  · intro hrep
    obtain ⟨s, t, hsplit⟩ := List.append_of_mem hmem
    have hside := fn_ne_of_nodup_split hnd hsplit
    constructor
    · rw [execTrace_stackChainLink, hsplit, List.map_append, List.map_cons,
        List.flatten_append, List.flatten_cons]
      obtain ⟨rest, hseg⟩ := segTrace_rep_head store tenant item hrep
      rw [hseg]
      refine ⟨Event.passed ("Step One For:" ++ id) :: (s.map (segTrace store tenant)).flatten,
        rest ++ (t.map (segTrace store tenant)).flatten, by simp, ?_⟩
      intro hc
      rcases List.mem_cons.mp hc with h | h
      · simp at h
      · obtain ⟨l, hl, hev⟩ := List.mem_flatten.mp h
        obtain ⟨e, he, rfl⟩ := List.mem_map.mp hl
        exact hside e (List.mem_append_left _ he) (invoked_mem_segTrace hev).symm
    · intro hpass
      rw [execTrace_stackChainLink] at hpass
      rcases List.mem_cons.mp hpass with h | h
      · rw [Event.passed.injEq] at h
        exact absurd h (skip_ne_stepOne item.fn id)
      · obtain ⟨l, hl, hev⟩ := List.mem_flatten.mp h
        obtain ⟨e, he, rfl⟩ := List.mem_map.mp hl
        obtain ⟨hname, _, hsucc2⟩ := passed_mem_segTrace hev
        have heq : e = item :=
          fn_eq_of_mem_of_nodup hnd he hmem (skip_name_inj hname).symm
        exact heq ▸ hsucc2

theorem claim_C6_witness :
    chainInvokeCount "FnA" (stackChainLink "Stack1" "tenant0" [⟨"FnA", true⟩]) = 1
    ∧ ((∃ pre mid, execTrace (fun _ => some "true")
            (stackChainLink "Stack1" "tenant0" [⟨"FnA", true⟩])
          = pre ++ Event.checked "FnA" (some "true") :: mid
        ∧ Event.invoked "FnA" ∉ pre)
      ∧ (Event.passed ("Skip " ++ "FnA")
            ∈ execTrace (fun _ => some "true")
                (stackChainLink "Stack1" "tenant0" [⟨"FnA", true⟩])
          → (some "true" : Option String) = some "true")) := by
  have h := claim_C6 (fun _ => some "true") "Stack1" "tenant0"
    [⟨"FnA", true⟩] ⟨"FnA", true⟩ (by decide) (by decide)
  exact ⟨h.1, h.2 rfl⟩

/-- C7: when the State Store holds a record with payload `true` for an
idempotent unit, executing the generated plan never invokes that unit
(registry function names pairwise distinct, as the spec requires of unit
names). -/
theorem claim_C7 (store : StateStore) (id tenant : String)
    (reg : List ILambdaRegistery) (item : ILambdaRegistery)
    (hnd : (reg.map ILambdaRegistery.fn).Nodup)
    (hmem : item ∈ reg) (hrep : item.«repeat» = true)
    (hsucc : store (item.fn, tenant) = some "true") :
    Event.invoked item.fn ∉ execTrace store (stackChainLink id tenant reg) := by
  rw [execTrace_stackChainLink]
  intro hc
  rcases List.mem_cons.mp hc with h | h
  · simp at h
  · obtain ⟨l, hl, hev⟩ := List.mem_flatten.mp h
    obtain ⟨e, he, rfl⟩ := List.mem_map.mp hl
    have heq : e = item :=
      fn_eq_of_mem_of_nodup hnd he hmem (invoked_mem_segTrace hev).symm
    subst heq
    rw [segTrace_rep_success store tenant e hrep hsucc] at hev
    simp at hev

theorem claim_C7_witness :
    Event.invoked "FnA"
      ∉ execTrace (fun _ => some "true")
          (stackChainLink "Stack1" "tenant0" [⟨"FnA", true⟩]) :=
  claim_C7 (fun _ => some "true") "Stack1" "tenant0" [⟨"FnA", true⟩]
    ⟨"FnA", true⟩ (by decide) (by decide) rfl rfl

/-- C8: for an idempotent unit with no State Record in the store, one
execution of the generated plan invokes the unit exactly once (registry
function names pairwise distinct). -/
theorem claim_C8 (store : StateStore) (id tenant : String)
    (reg : List ILambdaRegistery) (item : ILambdaRegistery)
    (hnd : (reg.map ILambdaRegistery.fn).Nodup)
    (hmem : item ∈ reg) (hrep : item.«repeat» = true)
    (habsent : store (item.fn, tenant) = none) :
    List.count (Event.invoked item.fn)
      (execTrace store (stackChainLink id tenant reg)) = 1 := by
  have h1 : store (item.fn, tenant) ≠ some "true" := by
    rw [habsent]
    simp
  rw [execTrace_stackChainLink, List.count_cons]
  have hflat : List.count (Event.invoked item.fn)
      ((reg.map (segTrace store tenant)).flatten)
      = (reg.map (fun e => List.count (Event.invoked item.fn)
          (segTrace store tenant e))).sum := by
    rw [List.count_flatten, List.map_map]
    rfl
  have hz : ∀ e ∈ reg, e.fn ≠ item.fn →
      List.count (Event.invoked item.fn) (segTrace store tenant e) = 0 := by
    intro e he hne
    rw [List.count_eq_zero]
    intro hc
    exact hne (invoked_mem_segTrace hc).symm
  rw [hflat, sum_map_eq_single reg item _ hnd hmem hz,
    segTrace_rep_notSuccess store tenant item hrep h1, habsent]
  simp

theorem claim_C8_witness :
    List.count (Event.invoked "FnA")
      (execTrace (fun _ => none)
        (stackChainLink "Stack1" "tenant0" [⟨"FnA", true⟩])) = 1 :=
  claim_C8 (fun _ => none) "Stack1" "tenant0" [⟨"FnA", true⟩]
    ⟨"FnA", true⟩ (by decide) (by decide) rfl rfl

end DmCdk
